import Mathlib

set_option maxHeartbeats 1000000

namespace BuildingAnalysis

/-!
Shallow embedding of the core analysis functions of the Building Analysis Tool
(src/app.py): component counting, cross-model comparison, attribute
flattening, window geometry derivation, and the spec-described revision log.
-/

/-- One element of a loaded model as the counting loop reads it: the string
produced by the is_a call, or none when reading the type raises an exception. -/
abbrev Entity := Option String

/-- Association-list lookup with default 0, modelling dict.get(k, 0). -/
def count_get (m : List (String × Nat)) (k : String) : Nat :=
  match m with
  | [] => 0
  | (k1, v) :: rest => if k1 = k then v else count_get rest k

/-- Incrementing a count map entry, modelling defaultdict(int) increment:
keys keep insertion order, a missing key starts at 0. -/
def incr (m : List (String × Nat)) (k : String) : List (String × Nat) :=
  match m with
  | [] => [(k, 1)]
  | (k1, v) :: rest => if k1 = k then (k1, v + 1) :: rest else (k1, v) :: incr rest k

/-- The body of count_building_components: iterate over the entities, adding
one per readable type name; an entity whose type name cannot be read raises,
the exception is caught outside the loop, and the partial count accumulated so
far is returned. -/
def countLoop (acc : List (String × Nat)) : List Entity → List (String × Nat)
  | [] => acc
  | none :: _ => acc
  | some t :: rest => countLoop (incr acc t) rest

/-- count_building_components from src/app.py: count elements per type name,
with the try block wrapping the whole loop. -/
def count_building_components (entities : List Entity) : List (String × Nat) :=
  countLoop [] entities

/-- Counting a list of readable type names (no exception involved). -/
def countAll (ts : List String) : List (String × Nat) :=
  ts.foldl incr []

/-- One row of the comparison result of compare_ifc_files. -/
structure CompEntry where
  file1Count : Nat
  file2Count : Nat
  difference : Int
deriving DecidableEq, Repr

/-- The union of the key sets of the two component counts, as iterated by the
comparison loop of compare_ifc_files. -/
def all_component_types (c1 c2 : List (String × Nat)) : List String :=
  (c1.map Prod.fst ++ c2.map Prod.fst).dedup

/-- The comparison loop of compare_ifc_files (src/app.py lines 278 to 288):
for every type name in the union of the two key sets, record both counts
(missing keys default to 0) and their difference as a signed integer. -/
def compare_counts (c1 c2 : List (String × Nat)) : List (String × CompEntry) :=
  (all_component_types c1 c2).map fun k =>
    (k, ⟨count_get c1 k, count_get c2 k, (count_get c1 k : Int) - (count_get c2 k : Int)⟩)

/-- compare_ifc_files from src/app.py: count both models, then compare. -/
def compare_ifc_files (f1 f2 : List Entity) : List (String × CompEntry) :=
  compare_counts (count_building_components f1) (count_building_components f2)

theorem countLoop_eq (l : List Entity) :
    ∀ acc, countLoop acc l = ((l.takeWhile Option.isSome).filterMap id).foldl incr acc := by
  induction l with
  | nil => intro acc; rfl
  | cons e rest ih =>
    intro acc
    match e with
    | none => rfl
    | some t =>
      simp only [countLoop, List.takeWhile, Option.isSome, List.filterMap, ih]
      rfl

/-- C1: the comparison result of compare_counts contains exactly one entry for
every type name in the union of the key sets of the two counts (no key
omitted, zero-difference entries retained); a key absent from one count
defaults to 0 and each difference equals the signed integer subtraction of the
two defaulted counts. -/
theorem compare_counts_spec (A B : List (String × Nat)) :
    ((compare_counts A B).map Prod.fst).Nodup ∧
    (∀ k : String, (∃ e, (k, e) ∈ compare_counts A B) ↔
      (k ∈ A.map Prod.fst ∨ k ∈ B.map Prod.fst)) ∧
    (∀ k e, (k, e) ∈ compare_counts A B →
      e.difference = (count_get A k : Int) - (count_get B k : Int) ∧
      e.file1Count = count_get A k ∧ e.file2Count = count_get B k) := by
  refine ⟨?_, ?_, ?_⟩
  · have h : (compare_counts A B).map Prod.fst = all_component_types A B := by
      simp [compare_counts, List.map_map, Function.comp_def]
    rw [h]
    exact (A.map Prod.fst ++ B.map Prod.fst).nodup_dedup
  · intro k
    constructor
    · rintro ⟨e, he⟩
      simp only [compare_counts, List.mem_map] at he
      obtain ⟨k2, hk2, hpair⟩ := he
      cases hpair
      simpa [all_component_types, List.mem_dedup, List.mem_append] using hk2
    · intro hk
      have hk2 : k ∈ all_component_types A B := by
        simpa [all_component_types, List.mem_dedup, List.mem_append] using hk
      exact ⟨_, List.mem_map_of_mem _ hk2⟩
  · intro k e he
    simp only [compare_counts, List.mem_map] at he
    obtain ⟨k2, hk2, hpair⟩ := he
    cases hpair
    exact ⟨rfl, rfl, rfl⟩

/-- Witness for C1 at the concrete counts from the spec example: the Wall key,
present only in the second count, appears in the comparison result. -/
theorem compare_counts_spec_witness :
    ∃ e, ("Wall", e) ∈ compare_counts [("Door", 5)] [("Door", 3), ("Wall", 1)] :=
  ((compare_counts_spec [("Door", 5)] [("Door", 3), ("Wall", 1)]).2.1 "Wall").mpr
    (Or.inr (by decide))

/-- C2 counterexample: when the element whose type cannot be read comes first,
the exception aborts the counting loop before any other element is seen, so
the model with 3 Wall elements and 2 Window elements yields the empty count,
not Wall 3 and Window 2 as the claim requires. -/
theorem count_building_components_cex :
    count_building_components
      [none, some "Wall", some "Wall", some "Wall", some "Window", some "Window"] = [] ∧
    count_get (count_building_components
      [none, some "Wall", some "Wall", some "Wall", some "Window", some "Window"]) "Wall" ≠ 3 := by
  exact ⟨rfl, by decide⟩

/-- C2 amended: a malformed element aborts the counting pass at the point of
failure rather than being skipped: the elements read before it are counted and
that partial count is returned (not voided), while elements after it are not
counted. In particular a model listing 3 Wall and 2 Window elements before the
malformed one yields Wall 3 and Window 2. -/
theorem count_building_components_amended :
    (∀ l : List Entity, count_building_components l =
      countAll ((l.takeWhile Option.isSome).filterMap id)) ∧
    count_building_components
      [some "Wall", some "Wall", some "Wall", some "Window", some "Window", none] =
      [("Wall", 3), ("Window", 2)] := by
  constructor
  · intro l
    exact countLoop_eq l []
  · rfl

/-- A property or quantity value: the mixed scalar types a property set can
hold in the source model. -/
inductive AttrValue where
  | text (s : String)
  | num (q : ℚ)
  | boolean (b : Bool)
deriving DecidableEq, Repr

/-- A named group of properties, modelling one property or quantity set. -/
abbrev PropGroup := List (String × AttrValue)

/-- Association-list lookup, modelling dict membership test plus access. -/
def alist_get (m : List (String × α)) (k : String) : Option α :=
  match m with
  | [] => none
  | (k1, v) :: rest => if k1 = k then some v else alist_get rest k

/-- The object_data dictionary built by get_objects_data_by_class: the seven
identity fields plus the two nested set maps. An identity field can itself
hold an absent value, as dict.get collapses a stored None and a missing key. -/
structure ObjectData where
  identity : List (String × Option AttrValue)
  PropertySets : List (String × PropGroup)
  QuantitySets : List (String × PropGroup)
deriving DecidableEq, Repr

/-- Helper for splitFirstDot: scan the characters, splitting at the first
dot, as the Python split call with count 1 does. -/
def splitDotAux (acc : List Char) : List Char → Option (String × String)
  | [] => none
  | c :: rest => if c = '.' then some (⟨acc⟩, ⟨rest⟩) else splitDotAux (acc ++ [c]) rest

/-- Split an attribute string at its first dot into group and property;
none when the string has no dot. -/
def splitFirstDot (s : String) : Option (String × String) :=
  splitDotAux [] s.data

/-- get_attribute_value from src/app.py: a dotted key is split at the first
dot; if the group name is a key of PropertySets the value is looked up in
that group alone; only when the group name is absent from PropertySets is
QuantitySets consulted; a key without a dot is read from the identity fields. -/
def get_attribute_value (od : ObjectData) (attr : String) : Option AttrValue :=
  match splitFirstDot attr with
  | none => (alist_get od.identity attr).join
  | some (pset_name, prop_name) =>
    match alist_get od.PropertySets pset_name with
    | some pset => alist_get pset prop_name
    | none =>
      match alist_get od.QuantitySets pset_name with
      | some qset => alist_get qset prop_name
      | none => none

/-- C3 counterexample object: PropertySets holds an empty group G while
QuantitySets holds the value of G.P. -/
def odC3 : ObjectData :=
  { identity := [],
    PropertySets := [("G", [])],
    QuantitySets := [("G", [("P", AttrValue.num 7)])] }

/-- C3 counterexample: the value stored only under QuantitySets G.P is not
returned when a group named G also exists in PropertySets; the code answers
none because it stops at the PropertySets group and never probes
QuantitySets. -/
theorem get_attribute_value_cex :
    alist_get odC3.QuantitySets "G" = some [("P", AttrValue.num 7)] ∧
    get_attribute_value odC3 "G.P" = none ∧
    get_attribute_value odC3 "G.P" ≠ some (AttrValue.num 7) := by
  refine ⟨rfl, rfl, ?_⟩
  intro h
  exact Option.noConfusion h

/-- C3 amended: resolution splits on the first separator into group and
property; when the group is a key of propertySets the result is the lookup of
the property in that propertySets group alone (absent gives none, without
consulting quantitySets); quantitySets is probed only when the group is absent
from propertySets, and then a value stored there is returned. -/
theorem get_attribute_value_amended (od : ObjectData) (attr X Y : String)
    (hsplit : splitFirstDot attr = some (X, Y)) :
    (∀ g, alist_get od.PropertySets X = some g →
      get_attribute_value od attr = alist_get g Y) ∧
    (alist_get od.PropertySets X = none →
      (∀ g, alist_get od.QuantitySets X = some g →
        get_attribute_value od attr = alist_get g Y) ∧
      (alist_get od.QuantitySets X = none → get_attribute_value od attr = none)) := by
  constructor
  · intro g hg
    simp [get_attribute_value, hsplit, hg]
  · intro hP
    constructor
    · intro g hg
      simp [get_attribute_value, hsplit, hP, hg]
    · intro hQ
      simp [get_attribute_value, hsplit, hP, hQ]

/-- Witness for the amended C3 at the counterexample object: the result is the
lookup of P inside the empty PropertySets group named G. -/
theorem get_attribute_value_amended_witness :
    get_attribute_value odC3 "G.P" = alist_get ([] : PropGroup) "P" :=
  (get_attribute_value_amended odC3 "G.P" "G" "P" rfl).1 [] rfl

/-- C4: for every element and dotted key splitting into group X and property
Y, when the PropertySets group X holds Y with value v the resolution returns
exactly v; and when no group named X in either map holds Y, the resolution
returns the absent marker none. The Lean function is total, so resolution
never raises. -/
theorem get_attribute_value_spec (od : ObjectData) (attr X Y : String)
    (hsplit : splitFirstDot attr = some (X, Y)) :
    (∀ g v, alist_get od.PropertySets X = some g → alist_get g Y = some v →
      get_attribute_value od attr = some v) ∧
    ((∀ g, alist_get od.PropertySets X = some g → alist_get g Y = none) →
     (∀ g, alist_get od.QuantitySets X = some g → alist_get g Y = none) →
      get_attribute_value od attr = none) := by
  constructor
  · intro g v hg hv
    simp [get_attribute_value, hsplit, hg, hv]
  · intro hP hQ
    simp only [get_attribute_value, hsplit]
    match hp : alist_get od.PropertySets X with
    | some g => exact hP g hp
    | none =>
      match hq : alist_get od.QuantitySets X with
      | some g => exact hQ g hq
      | none => rfl

/-- Witness for C4 at a concrete element whose PropertySets group Pset_X holds
Y with value 7. -/
theorem get_attribute_value_spec_witness :
    get_attribute_value
      { identity := [], PropertySets := [("Pset_X", [("Y", AttrValue.num 7)])],
        QuantitySets := [] } "Pset_X.Y" = some (AttrValue.num 7) :=
  (get_attribute_value_spec
      { identity := [], PropertySets := [("Pset_X", [("Y", AttrValue.num 7)])],
        QuantitySets := [] } "Pset_X.Y" "Pset_X" "Y" rfl).1 _ (AttrValue.num 7) rfl rfl

/-- One source object handed to get_objects_data_by_class, reduced to the
fields that function reads: the identity attributes plus the property set and
quantity set maps that Element.get_psets returns for it. -/
structure IfcObject where
  ExpressId : Nat
  GlobalId : Option AttrValue
  ClassName : String
  PredefinedType : Option AttrValue
  ObjName : Option AttrValue
  Level : String
  TypeLabel : String
  psets : List (String × PropGroup)
  qtos : List (String × PropGroup)
deriving DecidableEq, Repr

/-- The object_data dictionary literal built for one object inside
get_objects_data_by_class. -/
def toObjectData (o : IfcObject) : ObjectData :=
  { identity := [
      ("ExpressId", some (AttrValue.num o.ExpressId)),
      ("GlobalId", o.GlobalId),
      ("Class", some (AttrValue.text o.ClassName)),
      ("PredefinedType", o.PredefinedType),
      ("Name", o.ObjName),
      ("Level", some (AttrValue.text o.Level)),
      ("Type", some (AttrValue.text o.TypeLabel))],
    PropertySets := o.psets,
    QuantitySets := o.qtos }

/-- Adding one dotted key to the attribute collection, modelling set.add:
already-present keys are not duplicated. -/
def add_pset_attribute (acc : List String) (key : String) : List String :=
  if key ∈ acc then acc else acc ++ [key]

/-- The inner loop of add_pset_attributes: emit group.property for every
property of one group. -/
def add_group_attributes (acc : List String) (g : String) (grp : PropGroup) : List String :=
  grp.foldl (fun a q => add_pset_attribute a (g ++ "." ++ q.1)) acc

/-- add_pset_attributes from src/app.py: for every group of the given set
map, emit group.property for every key of the group. -/
def add_pset_attributes (acc : List String) (psets : List (String × PropGroup)) : List String :=
  psets.foldl (fun a p => add_group_attributes a p.1 p.2) acc

/-- get_objects_data_by_class from src/app.py: build one object_data record
per object, while collecting the union of the dotted keys contributed by each
object, property sets first then quantity sets. -/
def get_objects_data_by_class (objects : List IfcObject) :
    List ObjectData × List String :=
  (objects.map toObjectData,
   objects.foldl (fun acc o => add_pset_attributes (add_pset_attributes acc o.psets) o.qtos) [])

/-- The fixed identity columns prepended in display_detailed_object_data. -/
def identity_attributes : List String :=
  ["ExpressId", "GlobalId", "Class", "PredefinedType", "Name", "Level", "Type"]

/-- The pandas_data loop of display_detailed_object_data: one row per object,
resolving every attribute of the shared column list. -/
def build_rows (data : List ObjectData) (attributes : List String) :
    List (List (Option AttrValue)) :=
  data.map fun od => attributes.map (get_attribute_value od)

theorem mem_add_pset_attribute (acc : List String) (key k : String) :
    k ∈ add_pset_attribute acc key ↔ k ∈ acc ∨ k = key := by
  unfold add_pset_attribute
  by_cases h : key ∈ acc
  · simp only [if_pos h]
    constructor
    · exact Or.inl
    · rintro (hk | rfl)
      · exact hk
      · exact h
  · simp [if_neg h, List.mem_append]

theorem nodup_add_pset_attribute (acc : List String) (key : String)
    (h : acc.Nodup) : (add_pset_attribute acc key).Nodup := by
  unfold add_pset_attribute
  by_cases hk : key ∈ acc
  · simpa [if_pos hk] using h
  · rw [if_neg hk]
    refine List.Nodup.append h (List.nodup_singleton key) ?_
    intro a ha hb
    rw [List.mem_singleton] at hb
    subst hb
    exact hk ha

theorem mem_add_group_attributes (grp : PropGroup) :
    ∀ acc g k, k ∈ add_group_attributes acc g grp ↔
      k ∈ acc ∨ ∃ q ∈ grp, k = g ++ "." ++ q.1 := by
  induction grp with
  | nil => intro acc g k; simp [add_group_attributes]
  | cons q rest ih =>
    intro acc g k
    show k ∈ add_group_attributes (add_pset_attribute acc (g ++ "." ++ q.1)) g rest ↔ _
    rw [ih, mem_add_pset_attribute]
    simp only [List.mem_cons]
    constructor
    · rintro ((hk | rfl) | ⟨q2, hq2, rfl⟩)
      · exact Or.inl hk
      · exact Or.inr ⟨q, Or.inl rfl, rfl⟩
      · exact Or.inr ⟨q2, Or.inr hq2, rfl⟩
    · rintro (hk | ⟨q2, (rfl | hq2), rfl⟩)
      · exact Or.inl (Or.inl hk)
      · exact Or.inl (Or.inr rfl)
      · exact Or.inr ⟨q2, hq2, rfl⟩

theorem nodup_add_group_attributes (grp : PropGroup) :
    ∀ acc g, acc.Nodup → (add_group_attributes acc g grp).Nodup := by
  induction grp with
  | nil => intro acc g h; exact h
  | cons q rest ih =>
    intro acc g h
    exact ih (add_pset_attribute acc (g ++ "." ++ q.1)) g (nodup_add_pset_attribute acc _ h)

theorem mem_add_pset_attributes (psets : List (String × PropGroup)) :
    ∀ acc k, k ∈ add_pset_attributes acc psets ↔
      k ∈ acc ∨ ∃ g grp, (g, grp) ∈ psets ∧ ∃ q ∈ grp, k = g ++ "." ++ q.1 := by
  induction psets with
  | nil => intro acc k; simp [add_pset_attributes]
  | cons p rest ih =>
    intro acc k
    obtain ⟨g, grp⟩ := p
    show k ∈ add_pset_attributes (add_group_attributes acc g grp) rest ↔ _
    rw [ih, mem_add_group_attributes]
    simp only [List.mem_cons, Prod.mk.injEq]
    constructor
    · rintro ((hk | ⟨q, hq, rfl⟩) | ⟨g2, grp2, hg2, q, hq, rfl⟩)
      · exact Or.inl hk
      · exact Or.inr ⟨g, grp, Or.inl ⟨rfl, rfl⟩, q, hq, rfl⟩
      · exact Or.inr ⟨g2, grp2, Or.inr hg2, q, hq, rfl⟩
    · rintro (hk | ⟨g2, grp2, (⟨rfl, rfl⟩ | hg2), q, hq, rfl⟩)
      · exact Or.inl (Or.inl hk)
      · exact Or.inl (Or.inr ⟨q, hq, rfl⟩)
      · exact Or.inr ⟨g2, grp2, hg2, q, hq, rfl⟩

theorem nodup_add_pset_attributes (psets : List (String × PropGroup)) :
    ∀ acc, acc.Nodup → (add_pset_attributes acc psets).Nodup := by
  induction psets with
  | nil => intro acc h; exact h
  | cons p rest ih =>
    intro acc h
    exact ih _ (nodup_add_group_attributes p.2 acc p.1 h)

/-- The dotted keys one object contributes to the column set. -/
def objectDottedKey (o : IfcObject) (k : String) : Prop :=
  ∃ g grp, ((g, grp) ∈ o.psets ∨ (g, grp) ∈ o.qtos) ∧ ∃ q ∈ grp, k = g ++ "." ++ q.1

theorem mem_discover (objects : List IfcObject) :
    ∀ acc k, k ∈ objects.foldl
        (fun acc o => add_pset_attributes (add_pset_attributes acc o.psets) o.qtos) acc ↔
      k ∈ acc ∨ ∃ o ∈ objects, objectDottedKey o k := by
  induction objects with
  | nil => intro acc k; simp
  | cons o rest ih =>
    intro acc k
    show k ∈ rest.foldl _ (add_pset_attributes (add_pset_attributes acc o.psets) o.qtos) ↔ _
    rw [ih, mem_add_pset_attributes, mem_add_pset_attributes]
    simp only [List.mem_cons]
    constructor
    · rintro (((hk | ⟨g, grp, hg, q, hq, rfl⟩) | ⟨g, grp, hg, q, hq, rfl⟩) | ⟨o2, ho2, hkey⟩)
      · exact Or.inl hk
      · exact Or.inr ⟨o, Or.inl rfl, g, grp, Or.inl hg, q, hq, rfl⟩
      · exact Or.inr ⟨o, Or.inl rfl, g, grp, Or.inr hg, q, hq, rfl⟩
      · exact Or.inr ⟨o2, Or.inr ho2, hkey⟩
    · rintro (hk | ⟨o2, (rfl | ho2), g, grp, (hg | hg), q, hq, rfl⟩)
      · exact Or.inl (Or.inl (Or.inl hk))
      · exact Or.inl (Or.inl (Or.inr ⟨g, grp, hg, q, hq, rfl⟩))
      · exact Or.inl (Or.inr ⟨g, grp, hg, q, hq, rfl⟩)
      · exact Or.inr ⟨o2, ho2, g, grp, Or.inl hg, q, hq, rfl⟩
      · exact Or.inr ⟨o2, ho2, g, grp, Or.inr hg, q, hq, rfl⟩

theorem nodup_discover (objects : List IfcObject) :
    ∀ acc : List String, acc.Nodup → (objects.foldl
      (fun acc o => add_pset_attributes (add_pset_attributes acc o.psets) o.qtos) acc).Nodup := by
  induction objects with
  | nil => intro acc h; exact h
  | cons o rest ih =>
    intro acc h
    exact ih _ (nodup_add_pset_attributes o.qtos _ (nodup_add_pset_attributes o.psets acc h))

/-- C8: the discovered column set holds each dotted key exactly once and a
key belongs to it exactly when some object of the batch contributes it from
its property sets or quantity sets; every row of the flattened table is built
over the same column list (fixed identity columns plus the discovered keys),
so all rows have the same length; and resolving a dotted key whose group is
absent from both maps of an element yields the absent marker none rather than
an error. -/
theorem detailed_table_columns_spec (objects : List IfcObject) :
    ((get_objects_data_by_class objects).2).Nodup ∧
    (∀ k, k ∈ (get_objects_data_by_class objects).2 ↔
      ∃ o ∈ objects, objectDottedKey o k) ∧
    (∀ row ∈ build_rows (get_objects_data_by_class objects).1
        (identity_attributes ++ (get_objects_data_by_class objects).2),
      row.length = (identity_attributes ++ (get_objects_data_by_class objects).2).length) ∧
    (∀ od : ObjectData, ∀ attr X Y : String, splitFirstDot attr = some (X, Y) →
      alist_get od.PropertySets X = none → alist_get od.QuantitySets X = none →
      get_attribute_value od attr = none) := by
  refine ⟨?_, ?_, ?_, ?_⟩
  · exact nodup_discover objects [] List.nodup_nil
  · intro k
    rw [show (get_objects_data_by_class objects).2 = objects.foldl
      (fun acc o => add_pset_attributes (add_pset_attributes acc o.psets) o.qtos) [] from rfl,
      mem_discover]
    simp
  · intro row hrow
    simp only [build_rows, List.mem_map] at hrow
    obtain ⟨od, _, rfl⟩ := hrow
    exact List.length_map _ _
  · intro od attr X Y hsplit hP hQ
    simp [get_attribute_value, hsplit, hP, hQ]

/-- Witness for C8 at a single concrete object contributing Pset_X.Y. -/
theorem detailed_table_columns_spec_witness :
    "Pset_X.Y" ∈ (get_objects_data_by_class
      [⟨1, none, "IfcWall", none, none, "L1", "T1",
        [("Pset_X", [("Y", AttrValue.num 1)])], []⟩]).2 :=
  ((detailed_table_columns_spec
      [⟨1, none, "IfcWall", none, none, "L1", "T1",
        [("Pset_X", [("Y", AttrValue.num 1)])], []⟩]).2.1 "Pset_X.Y").mpr
    ⟨_, List.mem_singleton.mpr rfl,
      "Pset_X", [("Y", AttrValue.num 1)], Or.inl (List.mem_singleton.mpr rfl),
      ("Y", AttrValue.num 1), List.mem_singleton.mpr rfl, rfl⟩

/-- Substring test on character lists, modelling the Python in operator on
strings: the needle occurs at some position of the haystack. -/
def strContains (hay needle : List Char) : Bool :=
  match hay with
  | [] => needle.isPrefixOf ([] : List Char)
  | _ :: t => needle.isPrefixOf hay || strContains t needle

/-- A material layer referenced from a geometric item. -/
structure IfcLayer where
  LayerName : String
deriving DecidableEq, Repr

/-- The swept-area profile of an item; the Area attribute may be absent. -/
structure SweptAreaProfile where
  Area : Option ℚ
deriving DecidableEq, Repr

/-- The outer boundary of an item; reading a missing area attribute raises. -/
structure OuterBoundaryCurve where
  area : Option ℚ
deriving DecidableEq, Repr

/-- One geometric item of a shape representation, with the three optional
attributes calculate_glass_area probes via hasattr. -/
structure GeomItem where
  LayerAssignments : Option (List IfcLayer)
  SweptArea : Option SweptAreaProfile
  OuterBoundary : Option OuterBoundaryCurve
deriving DecidableEq, Repr

/-- One shape representation with its declared kind and optional item list. -/
structure ShapeRepresentation where
  RepresentationType : String
  Items : Option (List GeomItem)
deriving DecidableEq, Repr

/-- The product representation of a window: its representation list. -/
structure ProductRepresentation where
  Representations : List ShapeRepresentation
deriving DecidableEq, Repr

/-- A direction as stored in the model: a list of direction ratios. -/
structure IfcDirection where
  DirectionRatios : List ℚ
deriving DecidableEq, Repr

/-- The relative placement of a window, with its optional reference
direction. -/
structure AxisPlacement where
  RefDirection : Option IfcDirection
deriving DecidableEq, Repr

/-- The object placement of a window, with its optional relative placement. -/
structure ObjectPlacementRec where
  RelativePlacement : Option AxisPlacement
deriving DecidableEq, Repr

/-- A window element, reduced to the fields read by calculate_glass_area,
get_window_orientation and extract_window_data. -/
structure Window where
  GlobalId : String
  WinName : Option String
  Representation : Option ProductRepresentation
  ObjectPlacement : Option ObjectPlacementRec
deriving DecidableEq, Repr

/-- Outcome of the glass-area search: an area value returned from inside the
loops, an exception raised while reading a missing outer-boundary area, or no
return at all (the loop keeps going). -/
inductive SearchOutcome where
  | found (a : ℚ)
  | raised
  | notFound
deriving DecidableEq, Repr

/-- The elif branch at a glass layer: when an OuterBoundary is present its
area attribute is read and returned, and reading a missing area attribute
raises (the exception handler of the function turns that into the overall
result 0); with no OuterBoundary the layer loop continues (none). -/
def itemOuterOutcome (item : GeomItem) : Option SearchOutcome :=
  match item.OuterBoundary with
  | some ob =>
    match ob.area with
    | some a => some (SearchOutcome.found a)
    | none => some SearchOutcome.raised
  | none => none

/-- The return attempt at a glass layer of one item: the swept area when the
SweptArea attribute carries an Area, otherwise the outer-boundary attempt;
none means the layer loop continues with the next layer. -/
def itemGlassOutcome (item : GeomItem) : Option SearchOutcome :=
  match item.SweptArea with
  | some sa =>
    match sa.Area with
    | some a => some (SearchOutcome.found a)
    | none => itemOuterOutcome item
  | none => itemOuterOutcome item

/-- The layer loop of calculate_glass_area for one item: at each layer whose
name contains the substring Glass the item attempts a return; the remaining
layers are scanned when the attempt falls through. -/
def itemLayersSearch (item : GeomItem) : List IfcLayer → SearchOutcome
  | [] => SearchOutcome.notFound
  | layer :: rest =>
    if strContains layer.LayerName.data "Glass".data then
      match itemGlassOutcome item with
      | some o => o
      | none => itemLayersSearch item rest
    else itemLayersSearch item rest

/-- The per-item outcome: items without a LayerAssignments attribute are
skipped. -/
def itemOutcome (item : GeomItem) : SearchOutcome :=
  match item.LayerAssignments with
  | some layers => itemLayersSearch item layers
  | none => SearchOutcome.notFound

/-- The item loop of calculate_glass_area: the first item that returns or
raises ends the search. -/
def searchItems : List GeomItem → SearchOutcome
  | [] => SearchOutcome.notFound
  | item :: rest =>
    match itemOutcome item with
    | SearchOutcome.notFound => searchItems rest
    | o => o

/-- The membership test on the representation kind in calculate_glass_area. -/
def repQualifies (rep : ShapeRepresentation) : Bool :=
  rep.RepresentationType == "SweptSolid" ||
  rep.RepresentationType == "SurfaceModel" ||
  rep.RepresentationType == "Brep"

/-- The per-representation search: only qualifying kinds with an Items
attribute are traversed. -/
def searchRep (rep : ShapeRepresentation) : SearchOutcome :=
  if repQualifies rep then
    match rep.Items with
    | some items => searchItems items
    | none => SearchOutcome.notFound
  else SearchOutcome.notFound

/-- The representation loop of calculate_glass_area. -/
def searchReps : List ShapeRepresentation → SearchOutcome
  | [] => SearchOutcome.notFound
  | rep :: rest =>
    match searchRep rep with
    | SearchOutcome.notFound => searchReps rest
    | o => o

/-- calculate_glass_area from src/app.py: traverse the representation tree
and return the first area found; a raised exception is caught and, like an
exhausted search or a missing representation, gives 0. -/
def calculate_glass_area (w : Window) : ℚ :=
  match w.Representation with
  | none => 0
  | some pr =>
    match searchReps pr.Representations with
    | SearchOutcome.found a => a
    | _ => 0

/-- The non-silent outcomes of one representation, in item order: the
first-match characterization of the search. -/
def repOutcomeList (rep : ShapeRepresentation) : List SearchOutcome :=
  if repQualifies rep then
    match rep.Items with
    | some items => (items.map itemOutcome).filter (fun o => o ≠ SearchOutcome.notFound)
    | none => []
  else []

/-- All non-silent outcomes of a window, in traversal order. -/
def windowOutcomeList (w : Window) : List SearchOutcome :=
  match w.Representation with
  | none => []
  | some pr => (pr.Representations.map repOutcomeList).flatten

/-- Every area value stored anywhere on one item. -/
def itemAreas (item : GeomItem) : List ℚ :=
  (match item.SweptArea with
   | some sa => sa.Area.toList
   | none => []) ++
  (match item.OuterBoundary with
   | some ob => ob.area.toList
   | none => [])

/-- Every area value stored anywhere on the items of one representation. -/
def repAreas (rep : ShapeRepresentation) : List ℚ :=
  match rep.Items with
  | some items => (items.map itemAreas).flatten
  | none => []

/-- Every area value stored anywhere in the representation tree of a window. -/
def windowAreas (w : Window) : List ℚ :=
  match w.Representation with
  | none => []
  | some pr => (pr.Representations.map repAreas).flatten

theorem searchItems_eq (items : List GeomItem) :
    searchItems items =
      ((items.map itemOutcome).filter
        (fun o => o ≠ SearchOutcome.notFound)).headD SearchOutcome.notFound := by
  induction items with
  | nil => rfl
  | cons item rest ih =>
    show (match itemOutcome item with
      | SearchOutcome.notFound => searchItems rest
      | o => o) = _
    match h : itemOutcome item with
    | SearchOutcome.notFound => simp [h, ih]
    | SearchOutcome.found a => simp [h]
    | SearchOutcome.raised => simp [h]

theorem searchRep_eq (rep : ShapeRepresentation) :
    searchRep rep = (repOutcomeList rep).headD SearchOutcome.notFound := by
  unfold searchRep repOutcomeList
  by_cases hq : repQualifies rep
  · rw [if_pos hq, if_pos hq]
    match rep.Items with
    | some items => exact searchItems_eq items
    | none => rfl
  · rw [if_neg hq, if_neg hq]
    rfl

theorem notFound_not_mem_repOutcomeList (rep : ShapeRepresentation) :
    SearchOutcome.notFound ∉ repOutcomeList rep := by
  unfold repOutcomeList
  by_cases hq : repQualifies rep
  · rw [if_pos hq]
    match rep.Items with
    | some items =>
      intro h
      have := (List.mem_filter.mp h).2
      simp at this
    | none => exact List.not_mem_nil _
  · rw [if_neg hq]
    exact List.not_mem_nil _

theorem searchReps_eq (reps : List ShapeRepresentation) :
    searchReps reps =
      ((reps.map repOutcomeList).flatten).headD SearchOutcome.notFound := by
  induction reps with
  | nil => rfl
  | cons rep rest ih =>
    show (match searchRep rep with
      | SearchOutcome.notFound => searchReps rest
      | o => o) = _
    rw [searchRep_eq rep]
    match hL : repOutcomeList rep with
    | [] => simpa [hL] using ih
    | o :: L2 =>
      have ho : o ≠ SearchOutcome.notFound := by
        intro h
        exact notFound_not_mem_repOutcomeList rep (hL ▸ h ▸ List.mem_cons_self o L2)
      match o with
      | SearchOutcome.found a => simp [hL]
      | SearchOutcome.raised => simp [hL]
      | SearchOutcome.notFound => exact absurd rfl ho

theorem itemOuterOutcome_found_mem (item : GeomItem) (a : ℚ)
    (h : itemOuterOutcome item = some (SearchOutcome.found a)) : a ∈ itemAreas item := by
  obtain ⟨la, sw, obd⟩ := item
  match obd with
  | some ⟨some b⟩ =>
    have hb : SearchOutcome.found b = SearchOutcome.found a := Option.some.inj h
    cases hb
    simp [itemAreas]
  | some ⟨none⟩ =>
    have hb : SearchOutcome.raised = SearchOutcome.found a := Option.some.inj h
    exact absurd hb (by simp)
  | none => exact Option.noConfusion h

theorem itemGlassOutcome_found_mem (item : GeomItem) (a : ℚ)
    (h : itemGlassOutcome item = some (SearchOutcome.found a)) : a ∈ itemAreas item := by
  match hs : item.SweptArea with
  | some sa =>
    match hA : sa.Area with
    | some b =>
      have hb : itemGlassOutcome item = some (SearchOutcome.found b) := by
        simp [itemGlassOutcome, hs, hA]
      rw [hb] at h
      have := SearchOutcome.found.inj (Option.some.inj h)
      subst this
      simp [itemAreas, hs, hA]
    | none =>
      have hb : itemGlassOutcome item = itemOuterOutcome item := by
        simp [itemGlassOutcome, hs, hA]
      rw [hb] at h
      exact itemOuterOutcome_found_mem _ a h
  | none =>
    have hb : itemGlassOutcome item = itemOuterOutcome item := by
      simp [itemGlassOutcome, hs]
    rw [hb] at h
    exact itemOuterOutcome_found_mem _ a h

theorem itemLayersSearch_found_mem (item : GeomItem) :
    ∀ layers a, itemLayersSearch item layers = SearchOutcome.found a →
      a ∈ itemAreas item := by
  intro layers
  induction layers with
  | nil => intro a h; exact absurd h (by simp [itemLayersSearch])
  | cons layer rest ih =>
    intro a h
    rw [itemLayersSearch] at h
    by_cases hg : strContains layer.LayerName.data "Glass".data
    · rw [if_pos hg] at h
      match hgo : itemGlassOutcome item with
      | some o =>
        rw [hgo] at h
        have h2 : o = SearchOutcome.found a := h
        exact itemGlassOutcome_found_mem item a (h2 ▸ hgo)
      | none =>
        rw [hgo] at h
        exact ih a h
    · rw [if_neg hg] at h
      exact ih a h

theorem itemOutcome_found_mem (item : GeomItem) (a : ℚ)
    (h : itemOutcome item = SearchOutcome.found a) : a ∈ itemAreas item := by
  unfold itemOutcome at h
  match hl : item.LayerAssignments with
  | some layers => rw [hl] at h; exact itemLayersSearch_found_mem item layers a h
  | none => rw [hl] at h; exact absurd h (by simp)

theorem searchItems_found_mem (items : List GeomItem) :
    ∀ a, searchItems items = SearchOutcome.found a →
      a ∈ (items.map itemAreas).flatten := by
  induction items with
  | nil => intro a h; exact absurd h (by simp [searchItems])
  | cons item rest ih =>
    intro a h
    rw [show searchItems (item :: rest) = (match itemOutcome item with
      | SearchOutcome.notFound => searchItems rest
      | o => o) from rfl] at h
    match ho : itemOutcome item with
    | SearchOutcome.notFound =>
      rw [ho] at h
      have := ih a h
      simp only [List.map_cons, List.flatten_cons, List.mem_append]
      exact Or.inr this
    | SearchOutcome.found b =>
      rw [ho] at h
      have h2 : SearchOutcome.found b = SearchOutcome.found a := h
      cases h2
      simp only [List.map_cons, List.flatten_cons, List.mem_append]
      exact Or.inl (itemOutcome_found_mem item a ho)
    | SearchOutcome.raised =>
      rw [ho] at h
      have h2 : SearchOutcome.raised = SearchOutcome.found a := h
      exact absurd h2 (by simp)

theorem searchRep_found_mem (rep : ShapeRepresentation) (a : ℚ)
    (h : searchRep rep = SearchOutcome.found a) : a ∈ repAreas rep := by
  unfold searchRep at h
  by_cases hq : repQualifies rep
  · rw [if_pos hq] at h
    match hi : rep.Items with
    | some items =>
      rw [hi] at h
      unfold repAreas
      rw [hi]
      exact searchItems_found_mem items a h
    | none => rw [hi] at h; exact absurd h (by simp)
  · rw [if_neg hq] at h
    exact absurd h (by simp)

theorem searchReps_found_mem (reps : List ShapeRepresentation) :
    ∀ a, searchReps reps = SearchOutcome.found a →
      a ∈ (reps.map repAreas).flatten := by
  induction reps with
  | nil => intro a h; exact absurd h (by simp [searchReps])
  | cons rep rest ih =>
    intro a h
    rw [show searchReps (rep :: rest) = (match searchRep rep with
      | SearchOutcome.notFound => searchReps rest
      | o => o) from rfl] at h
    match ho : searchRep rep with
    | SearchOutcome.notFound =>
      rw [ho] at h
      simp only [List.map_cons, List.flatten_cons, List.mem_append]
      exact Or.inr (ih a h)
    | SearchOutcome.found b =>
      rw [ho] at h
      have h2 : SearchOutcome.found b = SearchOutcome.found a := h
      cases h2
      simp only [List.map_cons, List.flatten_cons, List.mem_append]
      exact Or.inl (searchRep_found_mem rep a ho)
    | SearchOutcome.raised =>
      rw [ho] at h
      have h2 : SearchOutcome.raised = SearchOutcome.found a := h
      exact absurd h2 (by simp)

theorem calculate_glass_area_some (w : Window) (pr : ProductRepresentation)
    (hr : w.Representation = some pr) :
    calculate_glass_area w =
      match searchReps pr.Representations with
      | SearchOutcome.found a => a
      | _ => 0 := by
  unfold calculate_glass_area
  rw [hr]

theorem windowOutcomeList_some (w : Window) (pr : ProductRepresentation)
    (hr : w.Representation = some pr) :
    windowOutcomeList w = (pr.Representations.map repOutcomeList).flatten := by
  unfold windowOutcomeList
  rw [hr]

theorem windowAreas_some (w : Window) (pr : ProductRepresentation)
    (hr : w.Representation = some pr) :
    windowAreas w = (pr.Representations.map repAreas).flatten := by
  unfold windowAreas
  rw [hr]

/-- C5 counterexample window: one qualifying swept-solid representation whose
single item carries a layer named GlassPane and a stored swept area of -1. -/
def cexWindow : Window :=
  { GlobalId := "w1", WinName := none,
    Representation := some ⟨[⟨"SweptSolid",
      some [⟨some [⟨"GlassPane"⟩], some ⟨some (-1)⟩, none⟩]⟩]⟩,
    ObjectPlacement := none }

/-- C5 counterexample: the code returns the stored swept area unchanged, so a
window whose glazing item stores the area -1 yields the negative result -1,
refuting the clause that the returned value is always non-negative. -/
theorem calculate_glass_area_cex :
    calculate_glass_area cexWindow = -1 ∧ calculate_glass_area cexWindow < 0 := by
  exact ⟨rfl, by decide⟩

/-- C5 amended: the result is 0 for a window with no representation; in
general it is determined by the first non-silent item of the traversal (the
first item in a qualifying representation kind having a glass-named layer and
either a readable swept area, a readable outer-boundary area, or an
outer-boundary whose area attribute is unreadable, the last giving 0 through
the exception handler), with 0 when no such item exists; and the result is
non-negative whenever every area value stored in the representation tree is
non-negative (the code returns stored areas unchanged and never produces a
negative value on its own). -/
theorem calculate_glass_area_amended (w : Window) :
    (w.Representation = none → calculate_glass_area w = 0) ∧
    (calculate_glass_area w =
      match (windowOutcomeList w).head? with
      | some (SearchOutcome.found a) => a
      | _ => 0) ∧
    ((∀ a ∈ windowAreas w, 0 ≤ a) → 0 ≤ calculate_glass_area w) := by
  refine ⟨?_, ?_, ?_⟩
  · intro h
    simp [calculate_glass_area, h]
  · match hr : w.Representation with
    | none => simp [calculate_glass_area, windowOutcomeList, hr]
    | some pr =>
      rw [calculate_glass_area_some w pr hr, windowOutcomeList_some w pr hr, searchReps_eq]
      match hf : (pr.Representations.map repOutcomeList).flatten with
      | [] => rfl
      | o :: t =>
        have ho : o ≠ SearchOutcome.notFound := by
          intro h
          subst h
          have : SearchOutcome.notFound ∈ (pr.Representations.map repOutcomeList).flatten :=
            hf ▸ List.mem_cons_self _ t
          obtain ⟨L, hL, hmem⟩ := List.mem_flatten.mp this
          obtain ⟨rep, _, rfl⟩ := List.mem_map.mp hL
          exact notFound_not_mem_repOutcomeList rep hmem
        match o with
        | SearchOutcome.found a => rfl
        | SearchOutcome.raised => rfl
        | SearchOutcome.notFound => exact absurd rfl ho
  · intro hpos
    match hr : w.Representation with
    | none => simp [calculate_glass_area, hr]
    | some pr =>
      rw [calculate_glass_area_some w pr hr]
      match hs : searchReps pr.Representations with
      | SearchOutcome.found a =>
        refine hpos a ?_
        rw [windowAreas_some w pr hr]
        exact searchReps_found_mem pr.Representations a hs
      | SearchOutcome.raised => exact le_refl (0 : ℚ)
      | SearchOutcome.notFound => exact le_refl (0 : ℚ)

/-- Witness for the amended C5: a window storing only the area 2 on its
glazing item satisfies the non-negativity hypothesis and yields a
non-negative result. -/
theorem calculate_glass_area_amended_witness :
    0 ≤ calculate_glass_area
      { GlobalId := "w2", WinName := none,
        Representation := some ⟨[⟨"SweptSolid",
          some [⟨some [⟨"GlassPane"⟩], some ⟨some 2⟩, none⟩]⟩]⟩,
        ObjectPlacement := none } :=
  (calculate_glass_area_amended _).2.2 (by decide)

/-- The Python float modulo with positive divisor, as used for azimuth
normalization: x - y * floor(x / y). -/
def pymod (x y : ℚ) : ℚ := x - y * (⌊x / y⌋ : ℤ)

theorem pymod_eq (x : ℚ) : pymod x 360 = 360 * Int.fract (x / 360) := by
  unfold pymod
  rw [Int.fract]
  ring

theorem pymod_nonneg (x : ℚ) : 0 ≤ pymod x 360 := by
  rw [pymod_eq]
  exact mul_nonneg (by norm_num) (Int.fract_nonneg _)

theorem pymod_lt_360 (x : ℚ) : pymod x 360 < 360 := by
  rw [pymod_eq]
  have h := Int.fract_lt_one (x / 360)
  nlinarith [Int.fract_nonneg (x / 360)]

/-- The dictionary returned by get_window_orientation. -/
structure OrientationInfo where
  Orientation : String
  Azimuth : Option ℚ
deriving DecidableEq, Repr

/-- get_window_orientation from src/app.py, parameterized by the composite
atan2deg of math.degrees and math.atan2 (a transcendental real function kept
abstract; the source applies it to the second and first direction ratios).
Any missing link of the placement chain gives Unknown with no azimuth, as
does a ratio list with fewer than two components (an empty list fails the
truthiness test and a one-element list raises an IndexError caught by the
handler). Otherwise the azimuth is the Python float modulo by 360 of the
atan2deg value and the orientation comes from the raw signs of the first two
ratios with the fixed priority East, West, North, South. -/
def get_window_orientation (atan2deg : ℚ → ℚ → ℚ) (w : Window) : OrientationInfo :=
  match w.ObjectPlacement with
  | none => ⟨"Unknown", none⟩
  | some op =>
    match op.RelativePlacement with
    | none => ⟨"Unknown", none⟩
    | some pl =>
      match pl.RefDirection with
      | none => ⟨"Unknown", none⟩
      | some rd =>
        match rd.DirectionRatios with
        | dx :: dy :: _ =>
          ⟨if dx > 0 then "East" else if dx < 0 then "West"
            else if dy > 0 then "North" else "South",
           some (pymod (atan2deg dy dx) 360)⟩
        | _ => ⟨"Unknown", none⟩

/-- The reference direction ratios reachable through the placement chain. -/
def refDirectionRatios (w : Window) : Option (List ℚ) :=
  (w.ObjectPlacement.bind (fun op => op.RelativePlacement.bind
    (fun pl => pl.RefDirection))).map IfcDirection.DirectionRatios

/-- C6: with a reference direction carrying ratios dx and dy, the orientation
label is computed from the raw signs of dx and dy with the fixed priority
East if dx is positive, else West if dx is negative, else North if dy is
positive, else South; the abstract atan2deg parameter shows the label is
independent of the azimuth value. -/
theorem get_window_orientation_signs (atan2deg : ℚ → ℚ → ℚ) (w : Window)
    (dx dy : ℚ) (rest : List ℚ)
    (h : refDirectionRatios w = some (dx :: dy :: rest)) :
    (get_window_orientation atan2deg w).Orientation =
      if dx > 0 then "East" else if dx < 0 then "West"
      else if dy > 0 then "North" else "South" := by
  unfold refDirectionRatios at h
  rw [Option.map_eq_some'] at h
  obtain ⟨rd, hchain, hratios⟩ := h
  rw [Option.bind_eq_some] at hchain
  obtain ⟨op, hop, hpl⟩ := hchain
  rw [Option.bind_eq_some] at hpl
  obtain ⟨pl, hpl2, hrd⟩ := hpl
  simp [get_window_orientation, hop, hpl2, hrd, hratios]

/-- The direction (1, 1) used in the spec example scenario. -/
def wDiag : Window :=
  { GlobalId := "w3", WinName := none, Representation := none,
    ObjectPlacement := some ⟨some ⟨some ⟨[1, 1]⟩⟩⟩ }

/-- Witness for C6 at the diagonal direction (1, 1) from the spec example:
the label is East by priority order, whatever the azimuth function says. -/
theorem get_window_orientation_signs_witness :
    (get_window_orientation (fun _ _ => 45) wDiag).Orientation = "East" := by
  have h := get_window_orientation_signs (fun _ _ => 45) wDiag 1 1 [] rfl
  rw [h, if_pos (by norm_num : (1 : ℚ) > 0)]

/-- C7: whenever the placement chain yields a reference direction with at
least the two indexed ratios, the azimuth is the atan2-derived angle taken
modulo 360 and lies in the interval from 0 inclusive to 360 exclusive; and
whenever no reference direction is reachable the azimuth is exactly none. -/
theorem get_window_orientation_azimuth (atan2deg : ℚ → ℚ → ℚ) (w : Window) :
    (∀ dx dy rest, refDirectionRatios w = some (dx :: dy :: rest) →
      (get_window_orientation atan2deg w).Azimuth = some (pymod (atan2deg dy dx) 360) ∧
      0 ≤ pymod (atan2deg dy dx) 360 ∧ pymod (atan2deg dy dx) 360 < 360) ∧
    (refDirectionRatios w = none →
      (get_window_orientation atan2deg w).Azimuth = none) := by
  constructor
  · intro dx dy rest h
    unfold refDirectionRatios at h
    rw [Option.map_eq_some'] at h
    obtain ⟨rd, hchain, hratios⟩ := h
    rw [Option.bind_eq_some] at hchain
    obtain ⟨op, hop, hpl⟩ := hchain
    rw [Option.bind_eq_some] at hpl
    obtain ⟨pl, hpl2, hrd⟩ := hpl
    refine ⟨?_, pymod_nonneg _, pymod_lt_360 _⟩
    simp [get_window_orientation, hop, hpl2, hrd, hratios]
  · intro hnone
    match hop : w.ObjectPlacement with
    | none => simp [get_window_orientation, hop]
    | some op =>
      match hpl : op.RelativePlacement with
      | none => simp [get_window_orientation, hop, hpl]
      | some pl =>
        match hrd : pl.RefDirection with
        | none => simp [get_window_orientation, hop, hpl, hrd]
        | some rd =>
          exact absurd hnone (by simp [refDirectionRatios, hop, hpl, hrd])

/-- Witness for C7 at the diagonal direction (1, 1) with a constant stand-in
for the atan2 composite. -/
theorem get_window_orientation_azimuth_witness :
    (get_window_orientation (fun _ _ => 45) wDiag).Azimuth = some (pymod 45 360) ∧
    0 ≤ pymod 45 360 ∧ pymod 45 360 < 360 :=
  (get_window_orientation_azimuth (fun _ _ => 45) wDiag).1 1 1 [] rfl

/-- One row of the windows table built by extract_window_data. -/
structure WindowRecord where
  GlobalId : String
  WinName : Option String
  Area : ℚ
  Orientation : String
  Azimuth : Option ℚ
deriving DecidableEq, Repr

/-- extract_window_data from src/app.py: one record per window, combining the
glass area with the orientation dictionary fields. -/
def extract_window_data (atan2deg : ℚ → ℚ → ℚ) (windows : List Window) :
    List WindowRecord :=
  windows.map fun w =>
    { GlobalId := w.GlobalId, WinName := w.WinName,
      Area := calculate_glass_area w,
      Orientation := (get_window_orientation atan2deg w).Orientation,
      Azimuth := (get_window_orientation atan2deg w).Azimuth }

theorem gwo_azimuth_none_iff (atan2deg : ℚ → ℚ → ℚ) (w : Window) :
    ((get_window_orientation atan2deg w).Azimuth = none ↔
      (get_window_orientation atan2deg w).Orientation = "Unknown") ∧
    ((get_window_orientation atan2deg w).Orientation = "Unknown" ∨
      (get_window_orientation atan2deg w).Orientation ∈
        ["East", "West", "North", "South"]) := by
  match hop : w.ObjectPlacement with
  | none => simp [get_window_orientation, hop]
  | some op =>
    match hpl : op.RelativePlacement with
    | none => simp [get_window_orientation, hop, hpl]
    | some pl =>
      match hrd : pl.RefDirection with
      | none => simp [get_window_orientation, hop, hpl, hrd]
      | some rd =>
        match hratios : rd.DirectionRatios with
        | [] => simp [get_window_orientation, hop, hpl, hrd, hratios]
        | [x] => simp [get_window_orientation, hop, hpl, hrd, hratios]
        | dx :: dy :: rest =>
          simp only [get_window_orientation, hop, hpl, hrd, hratios]
          constructor
          · constructor
            · intro habs
              exact absurd habs (by simp)
            · intro habs
              split_ifs at habs <;> simp_all
          · right
            split_ifs <;> simp

/-- C10: in every record produced by the window-data extraction, the azimuth
is none exactly when the orientation label is Unknown; any failure in reading
the placement yields that pair, and a successful read yields one of the four
directional labels together with a numeric azimuth. -/
theorem window_record_azimuth_iff (atan2deg : ℚ → ℚ → ℚ) (windows : List Window)
    (r : WindowRecord) (h : r ∈ extract_window_data atan2deg windows) :
    (r.Azimuth = none ↔ r.Orientation = "Unknown") ∧
    (r.Orientation = "Unknown" ∨
      r.Orientation ∈ ["East", "West", "North", "South"]) := by
  simp only [extract_window_data, List.mem_map] at h
  obtain ⟨w, hw, rfl⟩ := h
  exact gwo_azimuth_none_iff atan2deg w

/-- Witness for C10 at a window with no placement: its record pairs the
Unknown label with an absent azimuth. -/
theorem window_record_azimuth_iff_witness :
    ({ GlobalId := "w0", WinName := none, Area := 0,
       Orientation := "Unknown", Azimuth := none } : WindowRecord).Azimuth = none :=
  (window_record_azimuth_iff (fun _ _ => 0)
    [{ GlobalId := "w0", WinName := none, Representation := none,
       ObjectPlacement := none }]
    { GlobalId := "w0", WinName := none, Area := 0,
      Orientation := "Unknown", Azimuth := none }
    (List.mem_singleton.mpr rfl)).1.mpr rfl

/-- Modelled from the spec: the fields of one immutable revision record of
the Revision Record Manager, a component the spec describes but whose code is
not present in src/app.py. -/
structure RevisionRecord where
  fileHash : String
  timestamp : String
  author : String
  description : String
  approvalStatus : String
  comments : String
deriving DecidableEq, Repr

/-- The session revision log: for each file name, its ordered record
sequence, oldest first. -/
abbrev RevisionLog := List (String × List RevisionRecord)

/-- The record sequence held for one file name (empty when none). -/
def getLog (log : RevisionLog) (fileName : String) : List RevisionRecord :=
  match log with
  | [] => []
  | (n, rs) :: rest => if n = fileName then rs else getLog rest fileName

/-- Modelled from the spec: appendRecord of the Revision Record Manager (not
present in src/app.py): append-only, adding the record at the end of the
ordered per-file-name sequence; no existing record is removed or edited, and
an approval-status change arrives as a new record, never as a mutation. -/
def appendRecord (log : RevisionLog) (fileName : String) (record : RevisionRecord) :
    RevisionLog :=
  match log with
  | [] => [(fileName, [record])]
  | (n, rs) :: rest =>
    if n = fileName then (n, rs ++ [record]) :: rest
    else (n, rs) :: appendRecord rest fileName record

theorem getLog_appendRecord (log : RevisionLog) (fileName : String)
    (record : RevisionRecord) (g : String) :
    getLog (appendRecord log fileName record) g =
      if g = fileName then getLog log g ++ [record] else getLog log g := by
  induction log with
  | nil =>
    show (if fileName = g then [record] else []) = _
    by_cases hg : g = fileName
    · subst hg
      simp [getLog]
    · rw [if_neg (fun h => hg h.symm), if_neg hg]
      rfl
  | cons p rest ih =>
    obtain ⟨n, rs⟩ := p
    show getLog (if n = fileName then (n, rs ++ [record]) :: rest
      else (n, rs) :: appendRecord rest fileName record) g = _
    by_cases hn : n = fileName
    · subst hn
      rw [if_pos rfl]
      show (if n = g then rs ++ [record] else getLog rest g) = _
      by_cases hg : n = g
      · subst hg
        rw [if_pos rfl, if_pos rfl]
        show _ = (if n = n then rs else getLog rest n) ++ [record]
        rw [if_pos rfl]
      · rw [if_neg hg, if_neg (fun h : g = n => hg h.symm)]
        show getLog rest g = getLog ((n, rs) :: rest) g
        show getLog rest g = if n = g then rs else getLog rest g
        rw [if_neg hg]
    · rw [if_neg hn]
      show (if n = g then rs else getLog (appendRecord rest fileName record) g) = _
      by_cases hg : n = g
      · subst hg
        rw [if_pos rfl]
        have hgf : ¬ n = fileName := hn
        rw [if_neg (fun h : n = fileName => hn h)]
        show rs = if n = n then rs else getLog rest n
        rw [if_pos rfl]
      · rw [if_neg hg, ih]
        by_cases hgn : g = fileName
        · rw [if_pos hgn, if_pos hgn]
          show _ = (if n = g then rs else getLog rest g) ++ [record]
          rw [if_neg hg]
        · rw [if_neg hgn, if_neg hgn]
          show getLog rest g = if n = g then rs else getLog rest g
          rw [if_neg hg]

theorem foldl_appendRecord (fileName : String) (records : List RevisionRecord) :
    ∀ log : RevisionLog,
      getLog (records.foldl (fun l r => appendRecord l fileName r) log) fileName =
        getLog log fileName ++ records := by
  induction records with
  | nil => intro log; simp
  | cons r rest ih =>
    intro log
    show getLog (rest.foldl _ (appendRecord log fileName r)) fileName = _
    rw [ih, getLog_appendRecord, if_pos rfl]
    simp

/-- C9 (spec-modelled): after any sequence of appendRecord calls for one file
name starting from the empty log, the log for that file name is exactly the
appended records in call order, oldest first; each single append extends the
per-name sequence at the end, leaves every other name unchanged, and keeps
every previously appended record (the old sequence is a prefix), so no prior
record is ever edited or removed, approval-status changes included. -/
theorem appendRecord_spec :
    (∀ fileName : String, ∀ records : List RevisionRecord,
      getLog (records.foldl (fun l r => appendRecord l fileName r) []) fileName = records) ∧
    (∀ log fileName record (g : String),
      getLog (appendRecord log fileName record) g =
        if g = fileName then getLog log g ++ [record] else getLog log g) ∧
    (∀ log fileName record (g : String),
      getLog log g <+: getLog (appendRecord log fileName record) g) := by
  refine ⟨?_, ?_, ?_⟩
  · intro fileName records
    rw [foldl_appendRecord]
    rfl
  · intro log fileName record g
    exact getLog_appendRecord log fileName record g
  · intro log fileName record g
    rw [getLog_appendRecord]
    by_cases hg : g = fileName
    · rw [if_pos hg]
      exact List.prefix_append _ _
    · rw [if_neg hg]

end BuildingAnalysis
